import Mathlib

/-!
Verification of the structure-normalization pipeline of this repository.

Lines of a PDB file are modelled as `List Char` (one list per physical
line, without the trailing newline, exactly as Python's iteration plus
`rstrip(os.linesep)` produces them).  Fixed-column fields are read and
written through `readAt`/`writeAt`, which mirror Python slicing
`line[a:b]` and `line[:a] + new + line[b:]`.

The definitions in the first part are translated from
`src/haddock/libs/libpdb.py`.  The preprocessing module
(`haddock.gear.preprocessing`) is not part of the sources handed to us
(only its tests are), so its functions are modelled from the spec; each
such definition carries a doc comment starting with `Modelled from the
spec:`.
-/

/-- Utility taking the sublist `l[a : a+k]`, mirroring Python `line[a:a+k]`. -/
def readAt (a k : Nat) (l : List Char) : List Char :=
  (l.drop a).take k

/-- Utility overwriting the region starting at `a` with `s`, mirroring
Python `line[:a] + s + line[a+len(s):]`. -/
def writeAt (a : Nat) (s : List Char) (l : List Char) : List Char :=
  l.take a ++ s ++ l.drop (a + s.length)

/-- Whitespace test used by the Python `str.strip` model. -/
def isSpc (c : Char) : Bool :=
  c = ' ' || c = '\t' || c = '\n' || c = '\r'

/-- Model of Python `str.strip()`: remove leading and trailing whitespace. -/
def stripL (l : List Char) : List Char :=
  ((l.dropWhile isSpc).reverse.dropWhile isSpc).reverse

/-- Model of Python `line.rstrip(os.linesep)`: drop trailing newline characters. -/
def rstripNl (l : List Char) : List Char :=
  (l.reverse.dropWhile (fun c => c = '\n')).reverse

/-- Boolean test that `pat` is an initial segment of `s`. -/
def startsWithL : List Char → List Char → Bool
  | [], _ => true
  | _ :: _, [] => false
  | p :: ps, c :: cs => p == c && startsWithL ps cs

/-- Boolean test that `pat` occurs as a contiguous substring of `s`,
mirroring Python `pat in s` for nonempty `pat`. -/
def containsSub (pat : List Char) : List Char → Bool
  | [] => startsWithL pat []
  | c :: cs => startsWithL pat (c :: cs) || containsSub pat cs

/-- Fuel-driven worker for `replaceAll`; the fuel dominates the input
length so it never runs out for nonempty patterns. -/
def replaceAllFuel (pat rep : List Char) : Nat → List Char → List Char
  | _, [] => []
  | 0, s => s
  | n + 1, c :: cs =>
    if startsWithL pat (c :: cs) then
      rep ++ replaceAllFuel pat rep n ((c :: cs).drop pat.length)
    else
      c :: replaceAllFuel pat rep n cs

/-- Model of Python `s.replace(pat, rep)`: replace every non-overlapping
occurrence of `pat`, scanning left to right. -/
def replaceAll (pat rep s : List Char) : List Char :=
  replaceAllFuel pat rep s.length s

/-- Tag list `_to_remove` of `libpdb.py`. -/
def toRemove : List (List Char) :=
  [(r"REMAR").toList, (r"CTERB").toList, (r"CTERA").toList,
   (r"NTERA").toList, (r"NTERB").toList, (r"CONECT").toList]

/-- Ordered rename table `_to_rename` of `libpdb.py`. -/
def renameTable : List (List Char × List Char) :=
  [((r"HSD").toList, (r"HIS").toList),
   ((r"HSE").toList, (r"HIS").toList),
   ((r"HID").toList, (r"HIS").toList),
   ((r"HIE").toList, (r"HIS").toList),
   ((r"WAT ").toList, (r"TIP3").toList),
   ((r" 0.00969").toList, (r" 0.00   ").toList)]

/-- Application of the ordered rename substitutions to one line, as the
`for tag, new_tag in _to_rename.items()` loop of `sanitize` does. -/
def renameLine (l : List Char) : List Char :=
  renameTable.foldl (fun acc p => replaceAll p.1 p.2 acc) l

/-- Residue name of a line: columns 17-20 stripped, as `line[17:20].strip()`. -/
def resOf (l : List Char) : List Char :=
  stripL (readAt 17 3 l)

/-- Boolean test used throughout `libpdb.py` for atom/heteroatom records:
`line.startswith(("ATOM  ", "HETATM"))`. -/
def recordStart (l : List Char) : Bool :=
  startsWithL ((r"ATOM  ").toList) l || startsWithL ((r"HETATM").toList) l

/-- The end-marker line appended by `sanitize`. -/
def endLine : List Char := (r"END").toList

/-- Per-line step of the `sanitize` loop: strip the newline, drop the
line when it contains a `_to_remove` tag, otherwise apply the renames and
keep the line when its residue name is nonempty and whitelisted. -/
def sanitizeStep (keep : List (List Char)) (l0 : List Char) : Option (List Char) :=
  if toRemove.any (fun t => containsSub t (rstripNl l0)) then none
  else if (resOf (renameLine (rstripNl l0))).isEmpty then none
  else if keep.contains (resOf (renameLine (rstripNl l0))) then
    some (renameLine (rstripNl l0))
  else none

/-- Surviving lines of a `sanitize` pass (the `good_lines` accumulation
before the end-marker handling), for whitelist `keep`. -/
def sanitizeFilter (keep : List (List Char)) (lines : List (List Char)) : List (List Char) :=
  lines.filterMap (sanitizeStep keep)

/-- Line sequence written out by `sanitize` for whitelist `keep`: the
surviving lines, with `"END"` appended when the result is nonempty and
does not already end in `"END"`. -/
def sanitizeLines (keep : List (List Char)) (lines : List (List Char)) : List (List Char) :=
  let g := sanitizeFilter keep lines
  if g.isEmpty then g
  else if g.getLast? = some endLine then g else g ++ [endLine]

/-- Whitelist state after a `sanitize` call: passing a custom topology
executes `_to_keep.extend(custom_res_to_keep)`, otherwise the whitelist
is untouched.  The process-wide mutable list is embedded as explicit
state passing. -/
def updatedKeep (keep : List (List Char)) (customRes : Option (List (List Char))) :
    List (List Char) :=
  match customRes with
  | some extra => keep ++ extra
  | none => keep

/-- One `sanitize` call with explicit whitelist state: returns the output
lines together with the whitelist observed by subsequent calls. -/
def sanitizeCall (keep : List (List Char)) (customRes : Option (List (List Char)))
    (lines : List (List Char)) : List (List Char) × List (List Char) :=
  (sanitizeLines (updatedKeep keep customRes) lines, updatedKeep keep customRes)

example : stripL ((r"  AB ").toList) = (r"AB").toList := by decide
example : replaceAll ((r"HSD").toList) ((r"HIS").toList) ((r"XHSDY").toList)
    = (r"XHISY").toList := by decide
example : containsSub ((r"CONECT").toList) ((r"XCONECTY").toList) = true := by decide
example : sanitizeLines [(r"ALA").toList] [(r"TER").toList] = [] := by decide

/-- Chain-id value extracted by `identify_chainseg` from one record:
`line[21].strip()` with the `IndexError` branch giving the empty string,
then appended only when nonempty.  The surviving value is the single
character of column 21 when it is not blank. -/
def chainValue (l : List Char) : Option Char :=
  (stripL (readAt 21 1 l)).head?

/-- Segment-id value extracted by `identify_chainseg` from one record:
`line[72:76].strip()[:1]`, appended only when nonempty, hence the first
non-blank character of columns 72-76. -/
def segValue (l : List Char) : Option Char :=
  (stripL (readAt 72 4 l)).head?

/-- Chain ids collected by the `identify_chainseg` loop, in encounter order. -/
def collectChain (lines : List (List Char)) : List Char :=
  lines.filterMap (fun l => if recordStart l then chainValue l else none)

/-- Segment ids collected by the `identify_chainseg` loop, in encounter order. -/
def collectSeg (lines : List (List Char)) : List Char :=
  lines.filterMap (fun l => if recordStart l then segValue l else none)

/-- Translation of `identify_chainseg` of `libpdb.py`, returning
`(segids, chains)`.  With `sort = true` Python returns
`sorted(list(set(x)))`, i.e. the sorted duplicate-free list, embedded
here as `insertionSort` of `dedup` (equal to any sorted enumeration of
the set).  With `sort = false` Python returns `list(set(x))` whose order
is unspecified; the embedding picks the duplicate-free encounter order. -/
def identify_chainseg (lines : List (List Char)) (sort : Bool) :
    List Char × List Char :=
  if sort then
    ((collectSeg lines).dedup.insertionSort (· ≤ ·),
     (collectChain lines).dedup.insertionSort (· ≤ ·))
  else
    ((collectSeg lines).dedup, (collectChain lines).dedup)

/-- Modelled from the spec: the model splitter of the
`ModelConsistencyChecker` (`models_should_have_the_same_labels` of the
preprocessing module, absent from the sources).  Worker carrying the
lines of the currently open model, reversed. -/
def splitModelsAux : List (List Char) → Option (List (List Char)) →
    List (List (List Char))
  | [], none => []
  | [], some cur => [cur.reverse]
  | l :: t, none =>
    if startsWithL ((r"MODEL").toList) l then splitModelsAux t (some [])
    else splitModelsAux t none
  | l :: t, some cur =>
    if startsWithL ((r"ENDMDL").toList) l then cur.reverse :: splitModelsAux t none
    else splitModelsAux t (some (l :: cur))

/-- Modelled from the spec: split a line sequence into per-model segments
at the model-begin/model-end markers. -/
def splitModels (lines : List (List Char)) : List (List (List Char)) :=
  splitModelsAux lines none

/-- Modelled from the spec: the identity key of a model, the ordered
sequence of `(resName, resSeq)` pairs of its atom/heteroatom records
(columns 17-20 and 22-26). -/
def modelKey (m : List (List Char)) : List (List Char × List Char) :=
  m.filterMap (fun l =>
    if recordStart l then some (readAt 17 3 l, readAt 22 4 l) else none)

/-- Error message of `ModelsDifferError` for 1-based model index `i`. -/
def modelsDifferMsg (i : Nat) : List Char :=
  ((r"Labels in MODEL ") ++ toString i ++ (r" differ from MODEL 1.")).toList

/-- Modelled from the spec: comparison loop of the consistency checker,
`i` being the 1-based index of the first model of `ms`. -/
def checkAux (key : List (List Char × List Char)) :
    List (List (List Char)) → Nat → Except (List Char) Unit
  | [], _ => .ok ()
  | m :: ms, i =>
    if modelKey m = key then checkAux key ms (i + 1)
    else .error (modelsDifferMsg i)

/-- Modelled from the spec: `models_should_have_the_same_labels` computes
model 1's label key and fails, with the structured `ModelsDifferError`
message, at the first subsequent model whose key differs. -/
def models_should_have_the_same_labels (lines : List (List Char)) :
    Except (List Char) Unit :=
  match splitModels lines with
  | [] => .ok ()
  | m1 :: rest => checkAux (modelKey m1) rest 2

example :
    identify_chainseg
      [(r"ATOM      3  CA  ARG B   4      37.080  43.455  -3.421  1.00  0.00      XY   C  ").toList] true
    = ([('X' : Char)], [('B' : Char)]) := by decide

/-- Duplicate-free list keeping the first occurrence of each element, in
encounter order; `seen` accumulates the elements already emitted. -/
def dedupFirstAux (seen : List Char) : List Char → List Char
  | [] => []
  | c :: cs =>
    if seen.contains c then dedupFirstAux seen cs
    else c :: dedupFirstAux (c :: seen) cs

/-- Chain id of a line, the character of column 21 (blank when absent). -/
def chainAt (l : List Char) : Char := l.getD 21 ' '

/-- Boolean test that a line's chain-id column is not blank. -/
def chainNonblank (l : List Char) : Bool :=
  !(stripL (readAt 21 1 l)).isEmpty

/-- Left-justified four-character segment-id field holding one chain id. -/
def ljust4 (c : Char) : List Char := [c, ' ', ' ', ' ']

/-- Padding of a line on the right with blanks up to length `n`. -/
def padTo (n : Nat) (l : List Char) : List Char :=
  l ++ List.replicate (n - l.length) ' '

/-- Modelled from the spec: the distinct chain identifiers of a unit's
atom/heteroatom records, in order of first appearance
(`ChainSegidHomogenizer`, first bullet of its contract). -/
def unitChainIds (lines : List (List Char)) : List Char :=
  dedupFirstAux []
    (lines.filterMap (fun l =>
      if recordStart l && chainNonblank l then some (chainAt l) else none))

/-- The terminator-marker tag. -/
def terTag : List Char := (r"TER").toList

/-- Modelled from the spec: per-line rewrite of `homogenize_chains` once
the canonical id `c` is designated.  Atom/heteroatom records get `c` in
the chain-id column and `c` left-justified in the segment-id columns;
terminator markers get `c` written at the fixed chain-id offset (the line
is padded when it is too short to reach that offset); other lines are
untouched. -/
def homogenizeLine (c : Char) (l : List Char) : List Char :=
  if recordStart l then writeAt 72 (ljust4 c) (writeAt 21 [c] l)
  else if startsWithL terTag l then writeAt 21 [c] (padTo 22 l)
  else l

/-- Modelled from the spec: `homogenize_chains` of the preprocessing
module (absent from the sources).  When the unit's records carry more
than one distinct chain id, every record and terminator marker is
rewritten to the first-encountered id; otherwise the unit is returned
unchanged. -/
def homogenize_chains (lines : List (List Char)) : List (List Char) :=
  match unitChainIds lines with
  | c :: _ :: _ => lines.map (homogenizeLine c)
  | _ => lines

/-- Boolean test that some record of the unit carries a nonblank chain id. -/
def hasChainIds (lines : List (List Char)) : Bool :=
  lines.any (fun l => recordStart l && chainNonblank l)

/-- Boolean test that some record of the unit carries a nonblank segment id. -/
def hasSegIds (lines : List (List Char)) : Bool :=
  lines.any (fun l => recordStart l && !(stripL (readAt 72 4 l)).isEmpty)

/-- Modelled from the spec: per-line rewrite of the `ChainSegidResolver`
given the unit-level presence flags.  Case 1: neither id present, both
columns become `A`.  Case 2: only the chain id present, it is propagated
into the segment-id column.  Case 3: only the segment id present, it is
propagated into the chain-id column.  Case 4: both present, the chain id
wins and overwrites the segment-id column. -/
def solveLine (hasC hasS : Bool) (l : List Char) : List Char :=
  if recordStart l then
    if !hasC && !hasS then writeAt 72 (ljust4 'A') (writeAt 21 ['A'] l)
    else if hasC && !hasS then writeAt 72 (ljust4 (chainAt l)) l
    else if !hasC && hasS then
      writeAt 21 [(stripL (readAt 72 4 l)).headD (chainAt l)] l
    else writeAt 72 (ljust4 (chainAt l)) l
  else l

/-- Modelled from the spec: `solve_no_chainID_no_segID` of the
preprocessing module (absent from the sources), resolving an entire unit
consistently by the positional precedence rules. -/
def solve_no_chainID_no_segID (lines : List (List Char)) : List (List Char) :=
  lines.map (solveLine (hasChainIds lines) (hasSegIds lines))

/-- Modelled from the spec: the ion table of the `IonChargeAnnotator`,
mapping an element symbol to its canonical formal charge (sign and
magnitude) when a single unambiguous one exists (zinc, potassium,
fluoride), and to `none` when it does not (nickel). -/
def ionTable : List (List Char × Option (Char × Char)) :=
  [((r"ZN").toList, some ('+', '2')),
   ((r"K").toList, some ('+', '1')),
   ((r"F").toList, some ('-', '1')),
   ((r"NI").toList, none)]

/-- Charge-bearing canonical atom-name/element form of an ion, e.g. `ZN+2`. -/
def chargedAtomForm (e : List Char) (sm : Char × Char) : List Char :=
  e ++ [sm.1, sm.2]

/-- Charge-encoding canonical residue-name form of an ion, e.g. `ZN2`. -/
def chargedResForm (e : List Char) (sm : Char × Char) : List Char :=
  e ++ [sm.2]

/-- Right justification of `s` in a field of width `n`. -/
def rjust (n : Nat) (s : List Char) : List Char :=
  List.replicate (n - s.length) ' ' ++ s

/-- Left justification of `s` in a field of width `n`. -/
def ljustN (n : Nat) (s : List Char) : List Char :=
  s ++ List.replicate (n - s.length) ' '

/-- Modelled from the spec: recognition of a record as a given monoatomic
ion, by its residue name or atom name matching the plain element symbol
or one of the canonical charged forms. -/
def ionMatches (atomName resName : List Char) (ent : List Char × Option (Char × Char)) :
    Bool :=
  resName == ent.1 || atomName == ent.1 ||
    (match ent.2 with
     | some sm =>
       resName == chargedResForm ent.1 sm || atomName == chargedAtomForm ent.1 sm
     | none => false)

/-- Modelled from the spec: branch of the annotator for a recognized ion
carrying no explicit charge information: atom name untouched, residue
name re-justified to the plain element symbol, and a blank element field
populated with the plain element symbol (no charge suffix). -/
def ionPlainBranch (e : List Char) (elemF : List Char) (l : List Char) : List Char :=
  let l1 := writeAt 17 (rjust 3 e) l
  if elemF.isEmpty then writeAt 76 (ljustN 2 e) l1 else l1

/-- Modelled from the spec: per-record decision table of
`add_charges_to_ions` (absent from the sources).  A heteroatom record of
a recognized ion whose atom name, residue name or element field carries
the canonical charge gets atom name, residue name and element field (the
element columns together with the adjacent charge columns, 76-80)
rewritten to the canonical charged forms; a recognized ion with no
explicit charge information takes the plain branch; anything else passes
through unchanged. -/
def annotateIonLine (l : List Char) : List Char :=
  if startsWithL ((r"HETATM").toList) l then
    let atomName := stripL (readAt 12 4 l)
    let resName := stripL (readAt 17 3 l)
    let elemF := stripL (readAt 76 4 l)
    match ionTable.find? (ionMatches atomName resName) with
    | some (e, some sm) =>
      if atomName == chargedAtomForm e sm || resName == chargedResForm e sm
          || elemF == chargedAtomForm e sm then
        writeAt 76 (rjust 4 (chargedAtomForm e sm))
          (writeAt 17 (rjust 3 (chargedResForm e sm))
            (writeAt 12 (rjust 4 (chargedAtomForm e sm)) l))
      else ionPlainBranch e elemF l
    | some (e, none) => ionPlainBranch e elemF l
    | none => l
  else l

/-- Modelled from the spec: `add_charges_to_ions` of the preprocessing
module, a pure finite transform over the input lines. -/
def add_charges_to_ions (lines : List (List Char)) : List (List Char) :=
  lines.map annotateIonLine

/-- Modelled from the spec: the kinds of value the pipeline's
input-normalization entry point can receive: a path, an open readable
stream, an in-memory list or tuple of lines, or an unsupported value
(such as an int, a float, a dict or None). -/
inductive PPInput where
  | path (lines : List (List Char))
  | stream (lines : List (List Char))
  | lineList (lines : List (List Char))
  | lineTuple (lines : List (List Char))
  | intVal (n : Int)
  | floatVal
  | dictVal
  | noneVal

/-- Boolean test that an input value is of one of the supported kinds. -/
def isSupportedInput : PPInput → Bool
  | .path _ | .stream _ | .lineList _ | .lineTuple _ => true
  | _ => false

/-- Error message of the type error raised for unsupported input kinds. -/
def unsupportedInputMsg : List Char :=
  (r"Unsupported input type").toList

/-- Modelled from the spec: `_open_or_give`, normalizing a path, stream,
list or tuple into an in-memory line sequence and failing immediately
with a type error on any other input kind, before any processing. -/
def openOrGive : PPInput → Except (List Char) (List (List Char))
  | .path ls => .ok ls
  | .stream ls => .ok ls
  | .lineList ls => .ok ls
  | .lineTuple ls => .ok ls
  | .intVal _ => .error unsupportedInputMsg
  | .floatVal => .error unsupportedInputMsg
  | .dictVal => .error unsupportedInputMsg
  | .noneVal => .error unsupportedInputMsg

/-- Test fixture `models_wrong_2` of the repository, split into lines. -/
def mw2Fixture : List (List Char) := [
  (r"MODEL        1").toList,
  (r"ATOM      3  CA  ARG B   4      37.080  43.455  -3.421  1.00  0.00           C").toList,
  (r"ATOM      3  CA  GLU B   6      33.861  45.127  -2.233  1.00  0.00           C").toList,
  (r"ATOM      3  CA  ALA B   7      35.081  45.036   1.305  1.00  0.00           C").toList,
  (r"TER").toList,
  (r"ENDMDL").toList,
  (r"MODEL        2").toList,
  (r"ATOM      3  CA  GLU B   6      33.861  45.127  -2.233  1.00  0.00           C").toList,
  (r"ATOM      3  CA  ALA B   7      35.081  45.036   1.305  1.00  0.00           C").toList,
  (r"TER").toList,
  (r"ENDMDL").toList,
  (r"MODEL        3").toList,
  (r"ATOM      3  CA  ARG B   4      37.080  43.455  -3.421  1.00  0.00           C").toList,
  (r"ATOM      3  CA  GLU B   6      33.861  45.127  -2.233  1.00  0.00           C").toList,
  (r"ATOM      3  CA  ALA B   7      35.081  45.036   1.305  1.00  0.00           C").toList,
  (r"TER").toList,
  (r"ENDMDL").toList,
  (r"").toList]

/-- Test fixture `models_okay` of the repository, split into lines. -/
def mokFixture : List (List Char) := [
  (r"MODEL        1").toList,
  (r"ATOM      3  CA  ARG B   4      37.080  43.455  -3.421  1.00  0.00           C").toList,
  (r"ATOM      3  CA  GLU B   6      33.861  45.127  -2.233  1.00  0.00           C").toList,
  (r"ATOM      3  CA  ALA B   7      35.081  45.036   1.305  1.00  0.00           C").toList,
  (r"TER").toList,
  (r"ENDMDL").toList,
  (r"MODEL        2").toList,
  (r"ATOM      3  CA  ARG B   4      37.080  43.455  -3.421  1.00  0.00           C").toList,
  (r"ATOM      3  CA  GLU B   6      33.861  45.127  -2.233  1.00  0.00           C").toList,
  (r"ATOM      3  CA  ALA B   7      35.081  45.036   1.305  1.00  0.00           C").toList,
  (r"TER").toList,
  (r"ENDMDL").toList,
  (r"MODEL        3").toList,
  (r"ATOM      3  CA  ARG B   4      37.080  43.455  -3.421  1.00  0.00           C").toList,
  (r"ATOM      3  CA  GLU B   6      33.861  45.127  -2.233  1.00  0.00           C").toList,
  (r"ATOM      3  CA  ALA B   7      35.081  45.036   1.305  1.00  0.00           C").toList,
  (r"TER").toList,
  (r"ENDMDL").toList,
  (r"").toList]

/-- Test fixture `models_wrong_3` of the repository, split into lines. -/
def mw3Fixture : List (List Char) := [
  (r"MODEL        1").toList,
  (r"ATOM      3  CA  ARG B   4      37.080  43.455  -3.421  1.00  0.00           C").toList,
  (r"ATOM      3  CA  GLU B   6      33.861  45.127  -2.233  1.00  0.00           C").toList,
  (r"ATOM      3  CA  ALA B   7      35.081  45.036   1.305  1.00  0.00           C").toList,
  (r"TER").toList,
  (r"ENDMDL").toList,
  (r"MODEL        2").toList,
  (r"ATOM      3  CA  ARG B   4      37.080  43.455  -3.421  1.00  0.00           C").toList,
  (r"ATOM      3  CA  GLU B   6      33.861  45.127  -2.233  1.00  0.00           C").toList,
  (r"ATOM      3  CA  ALA B   7      35.081  45.036   1.305  1.00  0.00           C").toList,
  (r"TER").toList,
  (r"ENDMDL").toList,
  (r"MODEL        3").toList,
  (r"ATOM      3  CA  GLU B   6      33.861  45.127  -2.233  1.00  0.00           C").toList,
  (r"ATOM      3  CA  ALA B   7      35.081  45.036   1.305  1.00  0.00           C").toList,
  (r"TER").toList,
  (r"ENDMDL").toList,
  (r"").toList]

/-- Test fixture `multiple_chainIDs_1` of the repository. -/
def mc1Fixture : List (List Char) := [
  (r"ATOM      3  CA  ARG A   4      37.080  43.455  -3.421  1.00  0.00           C  ").toList,
  (r"ATOM      3  CA  GLU B   6      33.861  45.127  -2.233  1.00  0.00           C  ").toList,
  (r"TER").toList,
  (r"ATOM      3  CA  ALA C   7      35.081  45.036   1.305  1.00  0.00           C  ").toList]

/-- Test fixture `multiple_chainIDs_2` of the repository. -/
def mc2Fixture : List (List Char) := [
  (r"ATOM      3  CA  ARG C   4      37.080  43.455  -3.421  1.00  0.00           C  ").toList,
  (r"ATOM      3  CA  GLU B   6      33.861  45.127  -2.233  1.00  0.00           C  ").toList,
  (r"ATOM      3  CA  ALA A   7      35.081  45.036   1.305  1.00  0.00           C  ").toList]

/-- Test fixture `expected_multiple_chainIDs_1` of the repository. -/
def mc1Expected : List (List Char) := [
  (r"ATOM      3  CA  ARG A   4      37.080  43.455  -3.421  1.00  0.00      A    C  ").toList,
  (r"ATOM      3  CA  GLU A   6      33.861  45.127  -2.233  1.00  0.00      A    C  ").toList,
  (r"TER                  A                                                           ").toList,
  (r"ATOM      3  CA  ALA A   7      35.081  45.036   1.305  1.00  0.00      A    C  ").toList]

/-- Test fixture `expected_multiple_chainIDs_2` of the repository. -/
def mc2Expected : List (List Char) := [
  (r"ATOM      3  CA  ARG C   4      37.080  43.455  -3.421  1.00  0.00      C    C  ").toList,
  (r"ATOM      3  CA  GLU C   6      33.861  45.127  -2.233  1.00  0.00      C    C  ").toList,
  (r"ATOM      3  CA  ALA C   7      35.081  45.036   1.305  1.00  0.00      C    C  ").toList]

/-- Test fixture `nochain_chainIDs_1` of the repository. -/
def nc1Fixture : List (List Char) := [
  (r"ATOM      3  CA  ARG     4      37.080  43.455  -3.421  1.00  0.00              ").toList,
  (r"ATOM      3  CA  GLU     6      33.861  45.127  -2.233  1.00  0.00              ").toList,
  (r"ATOM      3  CA  ALA     7      35.081  45.036   1.305  1.00  0.00              ").toList]

/-- Test fixture `nochain_chainIDs_2` of the repository. -/
def nc2Fixture : List (List Char) := [
  (r"ATOM      3  CA  ARG A   4      37.080  43.455  -3.421  1.00  0.00              ").toList,
  (r"ATOM      3  CA  GLU A   6      33.861  45.127  -2.233  1.00  0.00              ").toList,
  (r"ATOM      3  CA  ALA A   7      35.081  45.036   1.305  1.00  0.00              ").toList]

/-- Test fixture `nochain_chainIDs_3` of the repository. -/
def nc3Fixture : List (List Char) := [
  (r"ATOM      3  CA  ARG     4      37.080  43.455  -3.421  1.00  0.00      A       ").toList,
  (r"ATOM      3  CA  GLU     6      33.861  45.127  -2.233  1.00  0.00      A       ").toList,
  (r"ATOM      3  CA  ALA     7      35.081  45.036   1.305  1.00  0.00      A       ").toList]

/-- Test fixture `nochain_chainIDs_4` of the repository. -/
def nc4Fixture : List (List Char) := [
  (r"ATOM      3  CA  ARG B   4      37.080  43.455  -3.421  1.00  0.00      A       ").toList,
  (r"ATOM      3  CA  GLU B   6      33.861  45.127  -2.233  1.00  0.00      A       ").toList,
  (r"ATOM      3  CA  ALA B   7      35.081  45.036   1.305  1.00  0.00      A       ").toList]

/-- Test fixture `expected_nochain_chainIDs_1` of the repository. -/
def nc1Expected : List (List Char) := [
  (r"ATOM      3  CA  ARG A   4      37.080  43.455  -3.421  1.00  0.00      A       ").toList,
  (r"ATOM      3  CA  GLU A   6      33.861  45.127  -2.233  1.00  0.00      A       ").toList,
  (r"ATOM      3  CA  ALA A   7      35.081  45.036   1.305  1.00  0.00      A       ").toList]

/-- Test fixture `expected_nochain_chainIDs_4` of the repository. -/
def nc4Expected : List (List Char) := [
  (r"ATOM      3  CA  ARG B   4      37.080  43.455  -3.421  1.00  0.00      B       ").toList,
  (r"ATOM      3  CA  GLU B   6      33.861  45.127  -2.233  1.00  0.00      B       ").toList,
  (r"ATOM      3  CA  ALA B   7      35.081  45.036   1.305  1.00  0.00      B       ").toList]

/-- Test fixture `ion_cases` of the repository. -/
def ionCases : List (List Char) := [
  (r"HETATM 3833 ZN+2 ZN2 A  42      21.391  -8.794  33.944  1.00 24.37          ZN  ").toList,
  (r"HETATM 3833 ZN+2 ZN2 A  42      21.391  -8.794  33.944  1.00 24.37          ZN+2").toList,
  (r"HETATM 3833 ZN   ZN2 A  42      21.391  -8.794  33.944  1.00 24.37          ZN  ").toList,
  (r"HETATM 3833 ZN+2 ZN2 A  42      21.391  -8.794  33.944  1.00 24.37          ZN+2").toList,
  (r"HETATM 3833 ZN+2 ZN  A  42      21.391  -8.794  33.944  1.00 24.37          ZN  ").toList,
  (r"HETATM 3833 ZN+2 ZN2 A  42      21.391  -8.794  33.944  1.00 24.37          ZN+2").toList,
  (r"HETATM 3833 ZN   ZN  A  42      21.391  -8.794  33.944  1.00 24.37          ZN  ").toList,
  (r"HETATM 3833 ZN    ZN A  42      21.391  -8.794  33.944  1.00 24.37          ZN  ").toList,
  (r"HETATM 3833 ZN    ZN A  42      21.391  -8.794  33.944  1.00 24.37          ZN+2").toList,
  (r"HETATM 3833 ZN+2 ZN2 A  42      21.391  -8.794  33.944  1.00 24.37          ZN+2").toList,
  (r"HETATM 3834  K    K1 A  42      21.391  -8.794  33.944  1.00 24.37              ").toList,
  (r"HETATM 3834  K+1  K1 A  42      21.391  -8.794  33.944  1.00 24.37           K+1").toList,
  (r"HETATM 3835 NI    NI A  42      21.391  -8.794  33.944  1.00 24.37              ").toList,
  (r"HETATM 3835 NI    NI A  42      21.391  -8.794  33.944  1.00 24.37          NI  ").toList,
  (r"HETATM 3834  F-1   F A  42      21.391  -8.794  33.944  1.00 24.37              ").toList,
  (r"HETATM 3834  F-1  F1 A  42      21.391  -8.794  33.944  1.00 24.37           F-1").toList]

example : splitModels mw2Fixture ≠ [] := by decide
example : solve_no_chainID_no_segID nc1Fixture = nc1Expected := by decide
example : solve_no_chainID_no_segID nc2Fixture = nc1Expected := by decide
example : solve_no_chainID_no_segID nc3Fixture = nc1Expected := by decide
example : solve_no_chainID_no_segID nc4Fixture = nc4Expected := by decide
example : homogenize_chains mc2Fixture = mc2Expected := by decide
example : add_charges_to_ions [ionCases.getD 0 []] = [ionCases.getD 1 []] := by decide
example : add_charges_to_ions [ionCases.getD 2 []] = [ionCases.getD 3 []] := by decide
example : add_charges_to_ions [ionCases.getD 2 []] = [ionCases.getD 5 []] := by decide
example : add_charges_to_ions [ionCases.getD 6 []] = [ionCases.getD 7 []] := by decide
example : add_charges_to_ions [ionCases.getD 8 []] = [ionCases.getD 9 []] := by decide
example : add_charges_to_ions [ionCases.getD 10 []] = [ionCases.getD 11 []] := by decide
example : add_charges_to_ions [ionCases.getD 12 []] = [ionCases.getD 13 []] := by decide
example : add_charges_to_ions [ionCases.getD 14 []] = [ionCases.getD 15 []] := by decide

lemma sanitizeStep_eq_some_iff {keep : List (List Char)} {l0 l : List Char} :
    sanitizeStep keep l0 = some l ↔
      ((∀ t ∈ toRemove, containsSub t (rstripNl l0) = false) ∧
       renameLine (rstripNl l0) = l ∧ resOf l ≠ [] ∧ resOf l ∈ keep) := by
  constructor
  · intro h
    unfold sanitizeStep at h
    split at h
    · exact absurd h (by simp)
    · rename_i h1
      split at h
      · exact absurd h (by simp)
      · rename_i h2
        split at h
        · rename_i h3
          obtain rfl : renameLine (rstripNl l0) = l := by
            simpa using h
          refine ⟨?_, rfl, ?_, ?_⟩
          · intro t ht
            by_contra hc
            exact h1 (List.any_eq_true.mpr ⟨t, ht, by simpa using hc⟩)
          · simpa [List.isEmpty_iff] using h2
          · simpa using h3
        · exact absurd h (by simp)
  · rintro ⟨h1, rfl, h3, h4⟩
    unfold sanitizeStep
    have ha : (toRemove.any fun t => containsSub t (rstripNl l0)) = false := by
      simpa using h1
    have hb : (resOf (renameLine (rstripNl l0))).isEmpty = false := by
      simpa [List.isEmpty_iff] using h3
    have hc : keep.contains (resOf (renameLine (rstripNl l0))) = true := by
      simpa using h4
    simp [ha, hb, hc, h4]

lemma mem_sanitizeFilter_iff {keep lines : List (List Char)} {l : List Char} :
    l ∈ sanitizeFilter keep lines ↔
      ∃ l0 ∈ lines, (∀ t ∈ toRemove, containsSub t (rstripNl l0) = false) ∧
        renameLine (rstripNl l0) = l ∧ resOf l ≠ [] ∧ resOf l ∈ keep := by
  unfold sanitizeFilter
  rw [List.mem_filterMap]
  constructor
  · rintro ⟨l0, hl0, h⟩
    exact ⟨l0, hl0, sanitizeStep_eq_some_iff.mp h⟩
  · rintro ⟨l0, hl0, h⟩
    exact ⟨l0, hl0, sanitizeStep_eq_some_iff.mpr h⟩

lemma resOf_ne_nil_of_mem_sanitizeFilter {keep lines : List (List Char)} {l : List Char}
    (h : l ∈ sanitizeFilter keep lines) : resOf l ≠ [] :=
  (mem_sanitizeFilter_iff.mp h).choose_spec.2.2.2.1

lemma endLine_not_mem_sanitizeFilter {keep lines : List (List Char)} :
    endLine ∉ sanitizeFilter keep lines := by
  intro h
  exact resOf_ne_nil_of_mem_sanitizeFilter h (by decide)

lemma sanitizeLines_eq_of_ne_nil {keep lines : List (List Char)}
    (h : sanitizeFilter keep lines ≠ []) :
    sanitizeLines keep lines = sanitizeFilter keep lines ++ [endLine] := by
  unfold sanitizeLines
  have h1 : (sanitizeFilter keep lines).isEmpty = false := by
    simpa [List.isEmpty_iff] using h
  have h2 : (sanitizeFilter keep lines).getLast? ≠ some endLine := by
    intro hc
    have hg := List.getLast?_eq_getLast_of_ne_nil h
    rw [hg] at hc
    have : (sanitizeFilter keep lines).getLast h ∈ sanitizeFilter keep lines :=
      List.getLast_mem h
    rw [Option.some_inj.mp hc] at this
    exact endLine_not_mem_sanitizeFilter this
  simp [h1, h2]

lemma sanitizeLines_eq_of_nil {keep lines : List (List Char)}
    (h : sanitizeFilter keep lines = []) : sanitizeLines keep lines = [] := by
  unfold sanitizeLines
  simp [h]

/-- Whitelist holding only the residue `ALA`, used in concrete instances. -/
def alaKeep : List (List Char) := [(r"ALA").toList]

/-- A plain alanine atom record (no rename key, no removal tag). -/
def alaLine : List Char :=
  (r"ATOM      3  CA  ALA C   7      35.081  45.036   1.305  1.00  0.00           C  ").toList

/-- An alanine atom record whose tail recreates the rename pattern
of the numeric-format rule after one substitution pass. -/
def cexLine : List Char :=
  (r"ATOM      1  CA  ALA A   1 0.009690.00969").toList

/-- C1: the claim asserts that marker lines such as `"TER"` survive
`sanitize`; on the code a `"TER"` line carries no disallowed tag and is
no atom/heteroatom record, yet it is removed (the pass keeps only lines
whose residue columns hold a whitelisted residue), so the whole output is
empty. -/
theorem sanitize_drops_marker_line :
    sanitizeLines alaKeep [terTag] = [] ∧
    (∀ t ∈ toRemove, containsSub t terTag = false) ∧
    recordStart terTag = false := by
  refine ⟨by decide, ?_, by decide⟩
  intro t ht
  fin_cases ht <;> decide

/-- C1 (amended): a line survives the filtering pass of `sanitize` if and
only if it is the renamed image of an input line that contains none of
the disallowed tags and whose residue columns, after the ordered rename
substitutions, hold a nonempty residue name present in the effective
whitelist; every other line, structural markers included, is removed. -/
theorem sanitize_keeps_iff (keep lines : List (List Char)) (l : List Char) :
    l ∈ sanitizeFilter keep lines ↔
      ∃ l0 ∈ lines, (∀ t ∈ toRemove, containsSub t (rstripNl l0) = false) ∧
        renameLine (rstripNl l0) = l ∧ resOf l ≠ [] ∧ resOf l ∈ keep :=
  mem_sanitizeFilter_iff

/-- C6: when at least one line survives the filtering, `sanitize` outputs
the surviving lines followed by a single `"END"` terminator (the last
line is `"END"` and it occurs exactly once); when nothing survives, the
output is empty and no terminator is appended. -/
theorem sanitize_end_guarantee (keep lines : List (List Char)) :
    (sanitizeFilter keep lines = [] → sanitizeLines keep lines = []) ∧
    (sanitizeFilter keep lines ≠ [] →
      sanitizeLines keep lines = sanitizeFilter keep lines ++ [endLine] ∧
      (sanitizeLines keep lines).getLast? = some endLine ∧
      (sanitizeLines keep lines).count endLine = 1) := by
  refine ⟨sanitizeLines_eq_of_nil, fun h => ?_⟩
  have he := sanitizeLines_eq_of_ne_nil h
  refine ⟨he, ?_, ?_⟩
  · rw [he]
    exact List.getLast?_concat _
  · rw [he, List.count_append]
    have h0 : (sanitizeFilter keep lines).count endLine = 0 :=
      List.count_eq_zero.mpr endLine_not_mem_sanitizeFilter
    simp [h0]

/-- Witness for `sanitize_end_guarantee` at a concrete input with one
surviving alanine record. -/
theorem sanitize_end_guarantee_witness :
    sanitizeLines alaKeep [alaLine] = sanitizeFilter alaKeep [alaLine] ++ [endLine] ∧
    (sanitizeLines alaKeep [alaLine]).count endLine = 1 := by
  have h := (sanitize_end_guarantee alaKeep [alaLine]).2 (by decide)
  exact ⟨h.1, h.2.2⟩

/-- C8: the whitelist state is extended append-only by a custom topology:
after the call it holds every previous entry followed by the new
residues, nothing is removed, a later call observes the widened
whitelist, and without a custom topology the whitelist is unchanged. -/
theorem sanitize_whitelist_append_only
    (keep extra lines lines2 : List (List Char)) :
    (sanitizeCall keep (some extra) lines).2 = keep ++ extra ∧
    (∀ res ∈ keep, res ∈ (sanitizeCall keep (some extra) lines).2) ∧
    (∀ res ∈ extra, res ∈ (sanitizeCall keep (some extra) lines).2) ∧
    (sanitizeCall keep none lines).2 = keep ∧
    (sanitizeCall ((sanitizeCall keep (some extra) lines).2) none lines2).1
      = sanitizeLines (keep ++ extra) lines2 := by
  refine ⟨rfl, ?_, ?_, rfl, rfl⟩
  · intro res hres
    exact List.mem_append_left _ hres
  · intro res hres
    exact List.mem_append_right _ hres

/-- Witness for `sanitize_whitelist_append_only` at concrete lists. -/
theorem sanitize_whitelist_append_only_witness :
    (sanitizeCall alaKeep (some [terTag]) []).2 = alaKeep ++ [terTag] ∧
    terTag ∈ (sanitizeCall alaKeep (some [terTag]) []).2 := by
  have h := sanitize_whitelist_append_only alaKeep [terTag] [] []
  exact ⟨h.1, h.2.2.1 terTag (by decide)⟩

/-- C7: `sanitize` is not idempotent: on `cexLine` the numeric rename
rule recreates its own pattern across the replacement boundary, so a
second pass changes the output again. -/
theorem sanitize_not_idempotent :
    sanitizeLines alaKeep (sanitizeLines alaKeep [cexLine])
      ≠ sanitizeLines alaKeep [cexLine] := by decide

lemma filterMap_fix {f : List Char → Option (List Char)} :
    ∀ xs : List (List Char), (∀ x ∈ xs, f x = some x) → xs.filterMap f = xs := by
  intro xs
  induction xs with
  | nil => intro _; rfl
  | cons x t ih =>
    intro h
    rw [List.filterMap_cons, h x (by simp)]
    rw [ih (fun y hy => h y (by simp [hy]))]

lemma sanitizeStep_endLine {keep : List (List Char)} :
    sanitizeStep keep endLine = none := by
  have h1 : (toRemove.any fun t => containsSub t (rstripNl endLine)) = false := by decide
  have h2 : (resOf (renameLine (rstripNl endLine))).isEmpty = true := by decide
  simp [sanitizeStep, h1, h2]

/-- C7 (amended): `sanitize` is idempotent on every input whose output
lines are fixed points of the per-line preprocessing, i.e. carry no
trailing newline, are unchanged by the rename substitutions, and contain
no disallowed tag; a second pass then re-keeps every surviving line,
drops only the appended terminator, and re-appends it. -/
theorem sanitize_idempotent_on_stable (keep lines : List (List Char))
    (h : ∀ l ∈ sanitizeLines keep lines,
        rstripNl l = l ∧ renameLine l = l ∧ ∀ t ∈ toRemove, containsSub t l = false) :
    sanitizeLines keep (sanitizeLines keep lines) = sanitizeLines keep lines := by
  by_cases hg : sanitizeFilter keep lines = []
  · rw [sanitizeLines_eq_of_nil hg]
    exact sanitizeLines_eq_of_nil rfl
  · have he := sanitizeLines_eq_of_ne_nil hg
    have hstep : ∀ l ∈ sanitizeFilter keep lines, sanitizeStep keep l = some l := by
      intro l hl
      have hmem : l ∈ sanitizeLines keep lines := by
        rw [he]; exact List.mem_append_left _ hl
      obtain ⟨hr, hn, ht⟩ := h l hmem
      obtain ⟨l0, _, _, _, hres, hkeep⟩ := mem_sanitizeFilter_iff.mp hl
      apply sanitizeStep_eq_some_iff.mpr
      rw [hr, hn]
      exact ⟨ht, rfl, hres, hkeep⟩
    have happ : ∀ xs ys : List (List Char),
        sanitizeFilter keep (xs ++ ys) = sanitizeFilter keep xs ++ sanitizeFilter keep ys := by
      intro xs ys
      exact List.filterMap_append xs ys (sanitizeStep keep)
    have hend : sanitizeFilter keep [endLine] = [] := by
      unfold sanitizeFilter
      simp [sanitizeStep_endLine]
    have hfix : sanitizeFilter keep (sanitizeFilter keep lines)
        = sanitizeFilter keep lines := filterMap_fix _ hstep
    have hfilter : sanitizeFilter keep (sanitizeLines keep lines)
        = sanitizeFilter keep lines := by
      rw [he, happ, hend, hfix, List.append_nil]
    rw [sanitizeLines_eq_of_ne_nil (hfilter.symm ▸ hg), hfilter, he]

/-- Witness for `sanitize_idempotent_on_stable` on a plain alanine record. -/
theorem sanitize_idempotent_on_stable_witness :
    sanitizeLines alaKeep (sanitizeLines alaKeep [alaLine])
      = sanitizeLines alaKeep [alaLine] := by
  apply sanitize_idempotent_on_stable alaKeep [alaLine]
  intro l hl
  have hls : sanitizeLines alaKeep [alaLine] = [alaLine, endLine] := by decide
  rw [hls] at hl
  simp only [List.mem_cons, List.not_mem_nil, or_false] at hl
  rcases hl with rfl | rfl
  · refine ⟨by decide, by decide, ?_⟩
    intro t ht
    fin_cases ht <;> decide
  · refine ⟨by decide, by decide, ?_⟩
    intro t ht
    fin_cases ht <;> decide

lemma if_opt_eq_some {b : Bool} {o : Option Char} {c : Char} :
    (if b then o else none) = some c ↔ b = true ∧ o = some c := by
  cases b <;> simp

lemma mem_sortDedup {x : List Char} {c : Char} :
    c ∈ x.dedup.insertionSort (· ≤ ·) ↔ c ∈ x := by
  rw [(List.perm_insertionSort _ _).mem_iff]
  exact List.mem_dedup

/-- C10: `identify_chainseg` collects chain and segment ids only from
lines beginning with `"ATOM  "` or `"HETATM"`, skips blank values,
reports a segment id by the first character of its stripped value, and
with `sort = true` returns both results as sorted duplicate-free lists. -/
theorem identify_chainseg_sorted_unique (lines : List (List Char)) :
    (identify_chainseg lines true).1.Sorted (· ≤ ·) ∧
    (identify_chainseg lines true).1.Nodup ∧
    (identify_chainseg lines true).2.Sorted (· ≤ ·) ∧
    (identify_chainseg lines true).2.Nodup ∧
    (∀ c, c ∈ (identify_chainseg lines true).2 ↔
      ∃ l ∈ lines, recordStart l = true ∧ chainValue l = some c) ∧
    (∀ s, s ∈ (identify_chainseg lines true).1 ↔
      ∃ l ∈ lines, recordStart l = true ∧ segValue l = some s) := by
  simp only [identify_chainseg, if_pos]
  refine ⟨List.sorted_insertionSort _ _,
          ((List.perm_insertionSort _ _).nodup_iff).mpr (List.nodup_dedup _),
          List.sorted_insertionSort _ _,
          ((List.perm_insertionSort _ _).nodup_iff).mpr (List.nodup_dedup _),
          ?_, ?_⟩
  · intro c
    rw [mem_sortDedup]
    unfold collectChain
    rw [List.mem_filterMap]
    exact exists_congr fun l => and_congr_right fun _ => if_opt_eq_some
  · intro s
    rw [mem_sortDedup]
    unfold collectSeg
    rw [List.mem_filterMap]
    exact exists_congr fun l => and_congr_right fun _ => if_opt_eq_some

lemma checkAux_ok_iff (key : List (List Char × List Char)) :
    ∀ (ms : List (List (List Char))) (i : Nat),
      checkAux key ms i = .ok () ↔ ∀ m ∈ ms, modelKey m = key := by
  intro ms
  induction ms with
  | nil => intro i; simp [checkAux]
  | cons m t ih =>
    intro i
    by_cases hm : modelKey m = key
    · simp [checkAux, hm, ih (i + 1)]
    · simp [checkAux, hm]

lemma checkAux_error_first (key : List (List Char × List Char)) :
    ∀ (ms : List (List (List Char))) (i j : Nat), j < ms.length →
      modelKey (ms.getD j []) ≠ key →
      (∀ k, k < j → modelKey (ms.getD k []) = key) →
      checkAux key ms i = .error (modelsDifferMsg (i + j)) := by
  intro ms
  induction ms with
  | nil => intro i j hj; exact absurd hj (by simp)
  | cons m t ih =>
    intro i j hj hne hpre
    cases j with
    | zero =>
      have hm : modelKey m ≠ key := by simpa using hne
      simp [checkAux, hm]
    | succ j =>
      have hm : modelKey m = key := by simpa using hpre 0 (Nat.succ_pos j)
      have hstep : checkAux key (m :: t) i = checkAux key t (i + 1) := by
        simp [checkAux, hm]
      rw [hstep]
      have harith : i + 1 + j = i + (j + 1) := by omega
      have := ih (i + 1) j (by simpa using hj) (by simpa using hne)
        (fun k hk => by simpa using hpre (k + 1) (by omega))
      rw [this, harith]

/-- C2: `models_should_have_the_same_labels` succeeds exactly when every
model's ordered `(resName, resSeq)` sequence equals model 1's, and at the
first differing model `i` (1-based) it fails with the structured message
`"Labels in MODEL i differ from MODEL 1."`; only that first offending
model is reported. -/
theorem check_labels_spec (lines : List (List Char)) (m1 : List (List Char))
    (rest : List (List (List Char))) (h : splitModels lines = m1 :: rest) :
    (models_should_have_the_same_labels lines = .ok () ↔
      ∀ m ∈ m1 :: rest, modelKey m = modelKey m1) ∧
    (∀ i, i < rest.length → modelKey (rest.getD i []) ≠ modelKey m1 →
      (∀ j, j < i → modelKey (rest.getD j []) = modelKey m1) →
      models_should_have_the_same_labels lines
        = .error (modelsDifferMsg (i + 2))) := by
  have hdef : models_should_have_the_same_labels lines
      = checkAux (modelKey m1) rest 2 := by
    unfold models_should_have_the_same_labels
    rw [h]
  constructor
  · rw [hdef, checkAux_ok_iff]
    constructor
    · intro hall m hm
      rcases List.mem_cons.mp hm with rfl | hm'
      · rfl
      · exact hall m hm'
    · intro hall m hm
      exact hall m (List.mem_cons_of_mem _ hm)
  · intro i hi hne hpre
    rw [hdef]
    have herr := checkAux_error_first (modelKey m1) rest 2 i hi hne hpre
    rw [Nat.add_comm 2 i] at herr
    exact herr

/-- Witness for `check_labels_spec` on the repository fixture
`models_wrong_2`: model 2 is the first to differ and the error message is
exactly the one asserted by the repository's test. -/
theorem check_labels_spec_witness :
    models_should_have_the_same_labels mw2Fixture = .error (modelsDifferMsg 2) ∧
    modelsDifferMsg 2 = (r"Labels in MODEL 2 differ from MODEL 1.").toList := by
  constructor
  · have h := check_labels_spec mw2Fixture ((splitModels mw2Fixture).headD [])
      ((splitModels mw2Fixture).tail) rfl
    exact h.2 0 (by decide) (by decide) (fun j hj => absurd hj (Nat.not_lt_zero j))
  · decide

lemma length_writeAt {a : Nat} {s l : List Char} (h : a + s.length ≤ l.length) :
    (writeAt a s l).length = l.length := by
  simp only [writeAt, List.length_append, List.length_take, List.length_drop]
  omega

lemma readAt_writeAt_self {a : Nat} {s l : List Char} (h : a ≤ l.length) :
    readAt a s.length (writeAt a s l) = s := by
  unfold readAt writeAt
  rw [List.append_assoc]
  have ht : (l.take a).length = a := by
    simp only [List.length_take]
    omega
  have h1 : (l.take a ++ (s ++ l.drop (a + s.length))).drop a
      = s ++ l.drop (a + s.length) := by
    have h2 := List.drop_left (l.take a) (s ++ l.drop (a + s.length))
    rwa [ht] at h2
  rw [h1, List.take_left]

lemma readAt_writeAt_before {a k b : Nat} {s l : List Char} (hab : a + k ≤ b)
    (hb : b ≤ l.length) : readAt a k (writeAt b s l) = readAt a k l := by
  unfold readAt writeAt
  rw [List.append_assoc]
  have ht : (l.take b).length = b := by
    simp only [List.length_take]
    omega
  have h1 : (l.take b ++ (s ++ l.drop (b + s.length))).drop a
      = (l.take b).drop a ++ (s ++ l.drop (b + s.length)) :=
    List.drop_append_of_le_length (by omega)
  rw [h1]
  have h2 : ((l.take b).drop a ++ (s ++ l.drop (b + s.length))).take k
      = ((l.take b).drop a).take k :=
    List.take_append_of_le_length (by simp only [List.length_drop, ht]; omega)
  rw [h2, List.drop_take, List.take_take]
  congr 1
  omega

lemma readAt_writeAt_after {a k b : Nat} {s l : List Char} (hba : b + s.length ≤ a)
    (hb : b ≤ l.length) : readAt a k (writeAt b s l) = readAt a k l := by
  unfold readAt writeAt
  have hlen : (l.take b ++ s).length = b + s.length := by
    simp only [List.length_append, List.length_take]
    omega
  have h1 : ((l.take b ++ s) ++ l.drop (b + s.length)).drop a
      = (l.drop (b + s.length)).drop (a - (b + s.length)) := by
    have h2 : ((l.take b ++ s) ++ l.drop (b + s.length)).drop
        ((l.take b ++ s).length + (a - (b + s.length)))
        = (l.drop (b + s.length)).drop (a - (b + s.length)) :=
      List.drop_append (a - (b + s.length))
    rw [hlen] at h2
    have h3 : b + s.length + (a - (b + s.length)) = a := by omega
    rwa [h3] at h2
  rw [h1, List.drop_drop]
  congr 2
  omega

lemma getElem?_writeAt_lt {a : Nat} {s l : List Char} {j : Nat} (hj : j < a)
    (ha : a ≤ l.length) : (writeAt a s l)[j]? = l[j]? := by
  unfold writeAt
  rw [List.append_assoc]
  have ht : (l.take a).length = a := by
    simp only [List.length_take]
    omega
  rw [List.getElem?_append_left (by omega)]
  simp [List.getElem?_take, hj]

lemma getElem?_writeAt_ge {a : Nat} {s l : List Char} {j : Nat}
    (hj : a + s.length ≤ j) (ha : a ≤ l.length) : (writeAt a s l)[j]? = l[j]? := by
  unfold writeAt
  have hlen : (l.take a ++ s).length = a + s.length := by
    simp only [List.length_append, List.length_take]
    omega
  rw [List.getElem?_append_right (by omega)]
  rw [hlen, List.getElem?_drop]
  congr 1
  omega

lemma getD_map_of_lt {f : List Char → List Char} {xs : List (List Char)} {i : Nat}
    (h : i < xs.length) : (xs.map f).getD i [] = f (xs.getD i []) := by
  simp [List.getD_eq_getElem?_getD, List.getElem?_map, List.getElem?_eq_getElem h]

lemma getD_mem_of_lt {xs : List (List Char)} {i : Nat} (h : i < xs.length) :
    xs.getD i [] ∈ xs := by
  have he : xs.getD i [] = xs[i] := by
    simp [List.getD_eq_getElem?_getD, List.getElem?_eq_getElem h]
  rw [he]
  exact xs.getElem_mem h

/-- C3: the claim asserts `homogenize_chains` preserves each line's
original length; on the repository's own fixture the 3-character
terminator line must be padded to receive the canonical id at the fixed
chain-id offset, so its length changes. -/
theorem homogenize_ter_length_changes :
    ((homogenize_chains mc1Fixture).getD 2 []).length
      ≠ (mc1Fixture.getD 2 []).length := by decide

/-- C3 (amended): for a unit carrying more than one distinct chain id,
`homogenize_chains` rewrites the chain-id column of every atom/heteroatom
record and of every terminator marker to the first-encountered chain id,
writes that id left-justified into the segment-id columns of every
atom/heteroatom record, preserves the length of every atom/heteroatom
record and leaves their other columns untouched; terminator markers are
padded as needed to receive the id at its fixed offset (their length is
not preserved), and all other lines are unchanged. -/
theorem homogenize_chains_spec (lines : List (List Char)) (c c2 : Char)
    (cs : List Char) (hc : unitChainIds lines = c :: c2 :: cs)
    (hw : ∀ l ∈ lines, recordStart l = true → 76 ≤ l.length) (i : Nat)
    (hi : i < lines.length) :
    (recordStart (lines.getD i []) = true →
      ((homogenize_chains lines).getD i []).length = (lines.getD i []).length ∧
      readAt 21 1 ((homogenize_chains lines).getD i []) = [c] ∧
      readAt 72 4 ((homogenize_chains lines).getD i []) = ljust4 c ∧
      (∀ j, j < 21 ∨ (22 ≤ j ∧ j < 72) ∨ 76 ≤ j →
        ((homogenize_chains lines).getD i [])[j]? = (lines.getD i [])[j]?)) ∧
    (recordStart (lines.getD i []) = false →
      startsWithL terTag (lines.getD i []) = true →
      readAt 21 1 ((homogenize_chains lines).getD i []) = [c]) ∧
    (recordStart (lines.getD i []) = false →
      startsWithL terTag (lines.getD i []) = false →
      (homogenize_chains lines).getD i [] = lines.getD i []) := by
  have hmap : homogenize_chains lines = lines.map (homogenizeLine c) := by
    unfold homogenize_chains
    rw [hc]
  have hget : (homogenize_chains lines).getD i []
      = homogenizeLine c (lines.getD i []) := by
    rw [hmap]
    exact getD_map_of_lt hi
  refine ⟨?_, ?_, ?_⟩
  · intro hrec
    have hlen : 76 ≤ (lines.getD i []).length :=
      hw _ (getD_mem_of_lt hi) hrec
    have hline : homogenizeLine c (lines.getD i [])
        = writeAt 72 (ljust4 c) (writeAt 21 [c] (lines.getD i [])) := by
      unfold homogenizeLine
      rw [hrec]
      simp
    have hlen1 : (writeAt 21 [c] (lines.getD i [])).length
        = (lines.getD i []).length :=
      length_writeAt (by simp only [List.length_cons, List.length_nil]; omega)
    rw [hget, hline]
    refine ⟨?_, ?_, ?_, ?_⟩
    · rw [length_writeAt, hlen1]
      rw [hlen1]
      simp only [ljust4, List.length_cons, List.length_nil]
      omega
    · rw [readAt_writeAt_before (by omega) (by omega)]
      have := readAt_writeAt_self (a := 21) (s := [c]) (l := lines.getD i [])
        (by omega)
      simpa using this
    · have := readAt_writeAt_self (a := 72) (s := ljust4 c)
        (l := writeAt 21 [c] (lines.getD i [])) (by omega)
      simpa [ljust4] using this
    · intro j hj
      rcases hj with hj | ⟨hj1, hj2⟩ | hj
      · rw [getElem?_writeAt_lt (by omega) (by omega),
            getElem?_writeAt_lt (by omega) (by omega)]
      · rw [getElem?_writeAt_lt (by omega) (by omega),
            getElem?_writeAt_ge (by simp only [List.length_cons, List.length_nil]; omega)
              (by omega)]
      · rw [getElem?_writeAt_ge (by simp only [ljust4, List.length_cons, List.length_nil]; omega)
              (by omega),
            getElem?_writeAt_ge (by simp only [List.length_cons, List.length_nil]; omega)
              (by omega)]
  · intro hrec hter
    have hline : homogenizeLine c (lines.getD i [])
        = writeAt 21 [c] (padTo 22 (lines.getD i [])) := by
      unfold homogenizeLine
      rw [hrec, hter]
      simp
    have hlen : 21 ≤ (padTo 22 (lines.getD i [])).length := by
      simp only [padTo, List.length_append, List.length_replicate]
      omega
    rw [hget, hline]
    have := readAt_writeAt_self (a := 21) (s := [c])
      (l := padTo 22 (lines.getD i [])) hlen
    simpa using this
  · intro hrec hter
    rw [hget]
    unfold homogenizeLine
    rw [hrec, hter]
    simp

/-- Witness for `homogenize_chains_spec` on the repository fixture
`multiple_chainIDs_2`, whose first-encountered chain id is `C`. -/
theorem homogenize_chains_spec_witness :
    readAt 21 1 ((homogenize_chains mc2Fixture).getD 0 []) = [('C' : Char)] ∧
    readAt 72 4 ((homogenize_chains mc2Fixture).getD 0 []) = ljust4 'C' := by
  have h := homogenize_chains_spec mc2Fixture 'C' 'B' [('A' : Char)]
    (by decide) (by decide) 0 (by decide)
  have h1 := h.1 (by decide)
  exact ⟨h1.2.1, h1.2.2.1⟩

/-- C4: `solve_no_chainID_no_segID` resolves a unit by the precedence
rules: with neither id present both columns become `A`; with only the
chain id present it is propagated into the segment-id column; with only
the segment id present it is propagated into the chain-id column; with
both present the chain id wins and overwrites the segment-id column. -/
theorem solve_no_chain_spec (lines : List (List Char))
    (hw : ∀ l ∈ lines, recordStart l = true → 76 ≤ l.length)
    (i : Nat) (hi : i < lines.length)
    (hrec : recordStart (lines.getD i []) = true) :
    (hasChainIds lines = false → hasSegIds lines = false →
      readAt 21 1 ((solve_no_chainID_no_segID lines).getD i []) = [('A' : Char)] ∧
      readAt 72 4 ((solve_no_chainID_no_segID lines).getD i []) = ljust4 'A') ∧
    (hasChainIds lines = true → hasSegIds lines = false →
      readAt 21 1 ((solve_no_chainID_no_segID lines).getD i [])
        = readAt 21 1 (lines.getD i []) ∧
      readAt 72 4 ((solve_no_chainID_no_segID lines).getD i [])
        = ljust4 (chainAt (lines.getD i []))) ∧
    (hasChainIds lines = false → hasSegIds lines = true →
      (∀ s, segValue (lines.getD i []) = some s →
        readAt 21 1 ((solve_no_chainID_no_segID lines).getD i []) = [s]) ∧
      readAt 72 4 ((solve_no_chainID_no_segID lines).getD i [])
        = readAt 72 4 (lines.getD i [])) ∧
    (hasChainIds lines = true → hasSegIds lines = true →
      readAt 21 1 ((solve_no_chainID_no_segID lines).getD i [])
        = readAt 21 1 (lines.getD i []) ∧
      readAt 72 4 ((solve_no_chainID_no_segID lines).getD i [])
        = ljust4 (chainAt (lines.getD i []))) := by
  have hget : (solve_no_chainID_no_segID lines).getD i []
      = solveLine (hasChainIds lines) (hasSegIds lines) (lines.getD i []) := by
    unfold solve_no_chainID_no_segID
    exact getD_map_of_lt hi
  have hlen : 76 ≤ (lines.getD i []).length := hw _ (getD_mem_of_lt hi) hrec
  refine ⟨?_, ?_, ?_, ?_⟩
  · intro hC hS
    have hline : solveLine (hasChainIds lines) (hasSegIds lines) (lines.getD i [])
        = writeAt 72 (ljust4 'A') (writeAt 21 [('A' : Char)] (lines.getD i [])) := by
      unfold solveLine
      rw [hrec, hC, hS]
      simp
    have hlen1 : (writeAt 21 [('A' : Char)] (lines.getD i [])).length
        = (lines.getD i []).length :=
      length_writeAt (by simp only [List.length_cons, List.length_nil]; omega)
    rw [hget, hline]
    constructor
    · rw [readAt_writeAt_before (by omega) (by omega)]
      have := readAt_writeAt_self (a := 21) (s := [('A' : Char)])
        (l := lines.getD i []) (by omega)
      simpa using this
    · have := readAt_writeAt_self (a := 72) (s := ljust4 'A')
        (l := writeAt 21 [('A' : Char)] (lines.getD i [])) (by omega)
      simpa [ljust4] using this
  · intro hC hS
    have hline : solveLine (hasChainIds lines) (hasSegIds lines) (lines.getD i [])
        = writeAt 72 (ljust4 (chainAt (lines.getD i []))) (lines.getD i []) := by
      unfold solveLine
      rw [hrec, hC, hS]
      simp
    rw [hget, hline]
    constructor
    · exact readAt_writeAt_before (by omega) (by omega)
    · have := readAt_writeAt_self (a := 72) (s := ljust4 (chainAt (lines.getD i [])))
        (l := lines.getD i []) (by omega)
      simpa [ljust4] using this
  · intro hC hS
    have hline : solveLine (hasChainIds lines) (hasSegIds lines) (lines.getD i [])
        = writeAt 21 [(stripL (readAt 72 4 (lines.getD i []))).headD
            (chainAt (lines.getD i []))] (lines.getD i []) := by
      unfold solveLine
      rw [hrec, hC, hS]
      simp
    rw [hget, hline]
    constructor
    · intro s hs
      have hx : (stripL (readAt 72 4 (lines.getD i []))).headD
          (chainAt (lines.getD i [])) = s := by
        unfold segValue at hs
        rw [List.headD_eq_head?_getD, hs]
        rfl
      rw [hx]
      have := readAt_writeAt_self (a := 21) (s := [s]) (l := lines.getD i [])
        (by omega)
      simpa using this
    · exact readAt_writeAt_after (by simp only [List.length_cons, List.length_nil]; omega)
        (by omega)
  · intro hC hS
    have hline : solveLine (hasChainIds lines) (hasSegIds lines) (lines.getD i [])
        = writeAt 72 (ljust4 (chainAt (lines.getD i []))) (lines.getD i []) := by
      unfold solveLine
      rw [hrec, hC, hS]
      simp
    rw [hget, hline]
    constructor
    · exact readAt_writeAt_before (by omega) (by omega)
    · have := readAt_writeAt_self (a := 72) (s := ljust4 (chainAt (lines.getD i [])))
        (l := lines.getD i []) (by omega)
      simpa [ljust4] using this

/-- Witness for `solve_no_chain_spec` on the repository fixture
`nochain_chainIDs_4` (chain `B`, conflicting segment `A`): the chain id
wins and the segment-id columns become `B` left-justified. -/
theorem solve_no_chain_spec_witness :
    readAt 72 4 ((solve_no_chainID_no_segID nc4Fixture).getD 0 []) = ljust4 'B' := by
  have h := solve_no_chain_spec nc4Fixture (by decide) 0 (by decide) (by decide)
  have h4 := (h.2.2.2 (by decide) (by decide)).2
  have hb : chainAt (nc4Fixture.getD 0 []) = 'B' := by decide
  rwa [hb] at h4

/-- Atom name of a record: columns 12-16 stripped. -/
def atomNameOf (l : List Char) : List Char := stripL (readAt 12 4 l)

/-- Residue name of a record: columns 17-20 stripped. -/
def resNameOf (l : List Char) : List Char := stripL (readAt 17 3 l)

/-- Element field of a record: columns 76-80 stripped (element columns
together with the adjacent charge columns). -/
def elemFieldOf (l : List Char) : List Char := stripL (readAt 76 4 l)

lemma length_rjust {n : Nat} {s : List Char} (h : s.length ≤ n) :
    (rjust n s).length = n := by
  simp only [rjust, List.length_append, List.length_replicate]
  omega

lemma length_ljustN {n : Nat} {s : List Char} (h : s.length ≤ n) :
    (ljustN n s).length = n := by
  simp only [ljustN, List.length_append, List.length_replicate]
  omega

lemma ionTable_entry_facts :
    ∀ ent ∈ ionTable, ent.1.length ≤ 2 ∧ stripL (rjust 3 ent.1) = ent.1 ∧
      ∀ sm, ent.2 = some sm → (chargedAtomForm ent.1 sm).length ≤ 4 ∧
        (chargedResForm ent.1 sm).length ≤ 3 := by
  intro ent hent
  fin_cases hent <;> refine ⟨by decide, by decide, ?_⟩ <;> intro sm hsm <;>
    (try cases hsm) <;> exact ⟨by decide, by decide⟩

lemma annotateIonLine_charged {l e : List Char} {sm : Char × Char}
    (hh : startsWithL ((r"HETATM").toList) l = true)
    (hfind : ionTable.find? (ionMatches (atomNameOf l) (resNameOf l))
      = some (e, some sm))
    (hcond : (atomNameOf l == chargedAtomForm e sm
        || resNameOf l == chargedResForm e sm
        || elemFieldOf l == chargedAtomForm e sm) = true) :
    annotateIonLine l = writeAt 76 (rjust 4 (chargedAtomForm e sm))
      (writeAt 17 (rjust 3 (chargedResForm e sm))
        (writeAt 12 (rjust 4 (chargedAtomForm e sm)) l)) := by
  unfold atomNameOf resNameOf at hfind
  unfold atomNameOf resNameOf elemFieldOf at hcond
  unfold annotateIonLine
  rw [if_pos hh]
  dsimp only []
  rw [hfind]
  dsimp only []
  rw [if_pos hcond]

lemma annotateIonLine_plain_charge {l e : List Char} {sm : Char × Char}
    (hh : startsWithL ((r"HETATM").toList) l = true)
    (hfind : ionTable.find? (ionMatches (atomNameOf l) (resNameOf l))
      = some (e, some sm))
    (hcond : (atomNameOf l == chargedAtomForm e sm
        || resNameOf l == chargedResForm e sm
        || elemFieldOf l == chargedAtomForm e sm) = false) :
    annotateIonLine l = ionPlainBranch e (elemFieldOf l) l := by
  unfold atomNameOf resNameOf at hfind
  unfold atomNameOf resNameOf elemFieldOf at hcond
  unfold annotateIonLine
  rw [if_pos hh]
  dsimp only []
  rw [hfind]
  dsimp only []
  rw [if_neg (by rw [hcond]; exact Bool.false_ne_true)]
  rfl

lemma annotateIonLine_no_charge {l e : List Char}
    (hh : startsWithL ((r"HETATM").toList) l = true)
    (hfind : ionTable.find? (ionMatches (atomNameOf l) (resNameOf l))
      = some (e, none)) :
    annotateIonLine l = ionPlainBranch e (elemFieldOf l) l := by
  unfold atomNameOf resNameOf at hfind
  unfold annotateIonLine
  rw [if_pos hh]
  dsimp only []
  rw [hfind]
  rfl

lemma annotateIonLine_unrecognized {l : List Char}
    (hh : startsWithL ((r"HETATM").toList) l = true)
    (hfind : ionTable.find? (ionMatches (atomNameOf l) (resNameOf l)) = none) :
    annotateIonLine l = l := by
  unfold atomNameOf resNameOf at hfind
  unfold annotateIonLine
  rw [if_pos hh]
  dsimp only []
  rw [hfind]

lemma annotateIonLine_not_het {l : List Char}
    (hh : startsWithL ((r"HETATM").toList) l = false) :
    annotateIonLine l = l := by
  unfold annotateIonLine
  rw [if_neg (by rw [hh]; exact Bool.false_ne_true)]

/-- C5: decision table of `add_charges_to_ions` on heteroatom records of
recognized monoatomic ions: a charge-bearing atom name makes the
charge-bearing form land in the element field; an uncharged atom name
with a charge-encoding residue name gets atom name, residue name and
element field rewritten to the canonical charged forms; a recognized ion
with no single unambiguous canonical charge keeps atom region and residue
name and only has its blank element field filled with the plain element
symbol; unrecognized residues/elements and non-heteroatom lines pass
through unchanged. -/
theorem add_charges_decision_table (lines : List (List Char)) (i : Nat)
    (hi : i < lines.length) (hlen : 76 ≤ (lines.getD i []).length) :
    (∀ e sm, startsWithL ((r"HETATM").toList) (lines.getD i []) = true →
      ionTable.find? (ionMatches (atomNameOf (lines.getD i []))
        (resNameOf (lines.getD i []))) = some (e, some sm) →
      atomNameOf (lines.getD i []) = chargedAtomForm e sm →
      readAt 76 4 ((add_charges_to_ions lines).getD i [])
        = rjust 4 (chargedAtomForm e sm)) ∧
    (∀ e sm, startsWithL ((r"HETATM").toList) (lines.getD i []) = true →
      ionTable.find? (ionMatches (atomNameOf (lines.getD i []))
        (resNameOf (lines.getD i []))) = some (e, some sm) →
      resNameOf (lines.getD i []) = chargedResForm e sm →
      readAt 12 4 ((add_charges_to_ions lines).getD i [])
        = rjust 4 (chargedAtomForm e sm) ∧
      readAt 17 3 ((add_charges_to_ions lines).getD i [])
        = rjust 3 (chargedResForm e sm) ∧
      readAt 76 4 ((add_charges_to_ions lines).getD i [])
        = rjust 4 (chargedAtomForm e sm)) ∧
    (∀ e, startsWithL ((r"HETATM").toList) (lines.getD i []) = true →
      ionTable.find? (ionMatches (atomNameOf (lines.getD i []))
        (resNameOf (lines.getD i []))) = some (e, none) →
      elemFieldOf (lines.getD i []) = [] →
      resNameOf (lines.getD i []) = e →
      readAt 12 4 ((add_charges_to_ions lines).getD i [])
        = readAt 12 4 (lines.getD i []) ∧
      resNameOf ((add_charges_to_ions lines).getD i [])
        = resNameOf (lines.getD i []) ∧
      readAt 76 2 ((add_charges_to_ions lines).getD i []) = ljustN 2 e) ∧
    (startsWithL ((r"HETATM").toList) (lines.getD i []) = true →
      ionTable.find? (ionMatches (atomNameOf (lines.getD i []))
        (resNameOf (lines.getD i []))) = none →
      (add_charges_to_ions lines).getD i [] = lines.getD i []) ∧
    (startsWithL ((r"HETATM").toList) (lines.getD i []) = false →
      (add_charges_to_ions lines).getD i [] = lines.getD i []) := by
  have hget : (add_charges_to_ions lines).getD i []
      = annotateIonLine (lines.getD i []) := by
    unfold add_charges_to_ions
    exact getD_map_of_lt hi
  refine ⟨?_, ?_, ?_, ?_, ?_⟩
  · intro e sm hh hfind hA
    have hmem := List.mem_of_find?_eq_some hfind
    obtain ⟨he2, -, hforms⟩ := ionTable_entry_facts _ hmem
    obtain ⟨hcA, hcR⟩ := hforms sm rfl
    have e1 : (rjust 4 (chargedAtomForm e sm)).length = 4 := length_rjust hcA
    have e2 : (rjust 3 (chargedResForm e sm)).length = 3 := length_rjust hcR
    have hcond : (atomNameOf (lines.getD i []) == chargedAtomForm e sm
        || resNameOf (lines.getD i []) == chargedResForm e sm
        || elemFieldOf (lines.getD i []) == chargedAtomForm e sm) = true := by
      rw [hA]
      simp
    rw [hget, annotateIonLine_charged hh hfind hcond]
    have L1 : (writeAt 12 (rjust 4 (chargedAtomForm e sm)) (lines.getD i [])).length
        = (lines.getD i []).length := length_writeAt (by rw [e1]; omega)
    have L2 : (writeAt 17 (rjust 3 (chargedResForm e sm))
        (writeAt 12 (rjust 4 (chargedAtomForm e sm)) (lines.getD i []))).length
        = (lines.getD i []).length := by
      rw [length_writeAt (by rw [e2, L1]; omega), L1]
    have hs := readAt_writeAt_self (a := 76) (s := rjust 4 (chargedAtomForm e sm))
      (l := writeAt 17 (rjust 3 (chargedResForm e sm))
        (writeAt 12 (rjust 4 (chargedAtomForm e sm)) (lines.getD i []))) (by omega)
    rwa [e1] at hs
  · intro e sm hh hfind hR
    have hmem := List.mem_of_find?_eq_some hfind
    obtain ⟨he2, -, hforms⟩ := ionTable_entry_facts _ hmem
    obtain ⟨hcA, hcR⟩ := hforms sm rfl
    have e1 : (rjust 4 (chargedAtomForm e sm)).length = 4 := length_rjust hcA
    have e2 : (rjust 3 (chargedResForm e sm)).length = 3 := length_rjust hcR
    have hcond : (atomNameOf (lines.getD i []) == chargedAtomForm e sm
        || resNameOf (lines.getD i []) == chargedResForm e sm
        || elemFieldOf (lines.getD i []) == chargedAtomForm e sm) = true := by
      rw [hR]
      simp
    rw [hget, annotateIonLine_charged hh hfind hcond]
    have L1 : (writeAt 12 (rjust 4 (chargedAtomForm e sm)) (lines.getD i [])).length
        = (lines.getD i []).length := length_writeAt (by rw [e1]; omega)
    have L2 : (writeAt 17 (rjust 3 (chargedResForm e sm))
        (writeAt 12 (rjust 4 (chargedAtomForm e sm)) (lines.getD i []))).length
        = (lines.getD i []).length := by
      rw [length_writeAt (by rw [e2, L1]; omega), L1]
    refine ⟨?_, ?_, ?_⟩
    · rw [readAt_writeAt_before (by omega) (by omega),
          readAt_writeAt_before (by omega) (by omega)]
      have hs := readAt_writeAt_self (a := 12) (s := rjust 4 (chargedAtomForm e sm))
        (l := lines.getD i []) (by omega)
      rwa [e1] at hs
    · rw [readAt_writeAt_before (by omega) (by omega)]
      have hs := readAt_writeAt_self (a := 17) (s := rjust 3 (chargedResForm e sm))
        (l := writeAt 12 (rjust 4 (chargedAtomForm e sm)) (lines.getD i []))
        (by omega)
      rwa [e2] at hs
    · have hs := readAt_writeAt_self (a := 76) (s := rjust 4 (chargedAtomForm e sm))
        (l := writeAt 17 (rjust 3 (chargedResForm e sm))
          (writeAt 12 (rjust 4 (chargedAtomForm e sm)) (lines.getD i []))) (by omega)
      rwa [e1] at hs
  · intro e hh hfind hE hRes
    have hmem := List.mem_of_find?_eq_some hfind
    obtain ⟨he2, hstrip, -⟩ := ionTable_entry_facts _ hmem
    have he2' : e.length ≤ 2 := he2
    have e3 : (rjust 3 e).length = 3 := length_rjust (by omega)
    have e4 : (ljustN 2 e).length = 2 := length_ljustN he2
    have hbr : annotateIonLine (lines.getD i [])
        = writeAt 76 (ljustN 2 e)
            (writeAt 17 (rjust 3 e) (lines.getD i [])) := by
      rw [annotateIonLine_no_charge hh hfind]
      unfold ionPlainBranch
      rw [if_pos (by rw [hE]; rfl)]
    have L1 : (writeAt 17 (rjust 3 e) (lines.getD i [])).length
        = (lines.getD i []).length := length_writeAt (by rw [e3]; omega)
    rw [hget, hbr]
    refine ⟨?_, ?_, ?_⟩
    · rw [readAt_writeAt_before (by omega) (by omega),
          readAt_writeAt_before (by omega) (by omega)]
    · unfold resNameOf
      rw [readAt_writeAt_before (by omega) (by omega)]
      have hs := readAt_writeAt_self (a := 17) (s := rjust 3 e)
        (l := lines.getD i []) (by omega)
      rw [e3] at hs
      rw [hs, hstrip]
      unfold resNameOf at hRes
      rw [hRes]
    · have hs := readAt_writeAt_self (a := 76) (s := ljustN 2 e)
        (l := writeAt 17 (rjust 3 e) (lines.getD i [])) (by omega)
      rwa [e4] at hs
  · intro hh hfind
    rw [hget, annotateIonLine_unrecognized hh hfind]
  · intro hh
    rw [hget, annotateIonLine_not_het hh]

/-- Witness for `add_charges_decision_table` on repository ion case 2
(charged atom name `ZN+2`, plain residue `ZN`): the atom-name region of
the output holds the canonical charged form. -/
theorem add_charges_decision_table_witness :
    readAt 12 4 ((add_charges_to_ions [ionCases.getD 2 []]).getD 0 [])
      = rjust 4 (chargedAtomForm ((r"ZN").toList) ('+', '2')) := by
  have h := add_charges_decision_table [ionCases.getD 2 []] 0 (by decide) (by decide)
  exact (h.2.1 ((r"ZN").toList) ('+', '2') (by decide) (by decide) (by decide)).1

/-- Witness for `sanitize_keeps_iff`: the alanine record survives the
filtering pass. -/
theorem sanitize_keeps_iff_witness :
    alaLine ∈ sanitizeFilter alaKeep [alaLine] := by
  apply (sanitize_keeps_iff alaKeep [alaLine] alaLine).mpr
  refine ⟨alaLine, by decide, ?_, by decide, by decide, by decide⟩
  intro t ht
  fin_cases ht <;> decide

/-- Witness for `identify_chainseg_sorted_unique`: chain `B` of the
repository fixture is reported. -/
theorem identify_chainseg_sorted_unique_witness :
    ('B' : Char) ∈ (identify_chainseg mc1Fixture true).2 := by
  apply ((identify_chainseg_sorted_unique mc1Fixture).2.2.2.2.1 'B').mpr
  exact ⟨mc1Fixture.getD 1 [], by decide, by decide, by decide⟩

/-- C9: the input-normalization entry point returns the line sequence for
a path, an open stream, a list or a tuple, and fails immediately with the
type error on every other input kind. -/
theorem open_or_give_types :
    (∀ ls, openOrGive (.path ls) = .ok ls) ∧
    (∀ ls, openOrGive (.stream ls) = .ok ls) ∧
    (∀ ls, openOrGive (.lineList ls) = .ok ls) ∧
    (∀ ls, openOrGive (.lineTuple ls) = .ok ls) ∧
    (∀ inp, isSupportedInput inp = false →
      openOrGive inp = .error unsupportedInputMsg) ∧
    (∀ inp, isSupportedInput inp = true → ∃ ls, openOrGive inp = .ok ls) := by
  refine ⟨fun ls => rfl, fun ls => rfl, fun ls => rfl, fun ls => rfl, ?_, ?_⟩
  · intro inp h
    cases inp <;> first
      | rfl
      | exact absurd h (by simp [isSupportedInput])
  · intro inp h
    cases inp <;> first
      | exact ⟨_, rfl⟩
      | exact absurd h (by simp [isSupportedInput])

/-- Witness for `open_or_give_types` at a dict input and a path input. -/
theorem open_or_give_types_witness :
    openOrGive PPInput.dictVal = .error unsupportedInputMsg ∧
    openOrGive (PPInput.path []) = .ok [] :=
  ⟨open_or_give_types.2.2.2.2.1 PPInput.dictVal rfl, open_or_give_types.1 []⟩
